import Mathlib

/-!
Verification of the `chaotic-web` repository (src/main.py) against its
natural-language specification.  Text is embedded as `List Char`; the
Python string operations used by the source (`split`, `strip`, `lower`,
`startswith`, substring tests, `'\n'.join`) are modelled explicitly below,
and each source function is translated into a Lean definition of the same
name.
-/

namespace ChaoticWeb

/-- Conversion from a Lean string literal to the character-list embedding. -/
def chars (s : String) : List Char := s.toList

/-- Backtick character, written by code point to keep sources plain. -/
def tick : Char := Char.ofNat 96

/-- Opening curly brace character. -/
def lbrace : Char := Char.ofNat 123

/-- Closing curly brace character. -/
def rbrace : Char := Char.ofNat 125

/-- Newline character used by the sanitizer's line handling. -/
def nl : Char := '\n'

/-- Colon character used by the CSS heuristic. -/
def colon : Char := ':'

/-- Semicolon character used by the CSS heuristic. -/
def semi : Char := ';'

/-- Double-quote character used by the JSON serializer. -/
def dquote : Char := '"'

/-- Backslash character used by the JSON serializer. -/
def bslash : Char := '\\'

/-- The markdown fence delimiter, three backticks (the separator of
`content.split("```")` in the source). -/
def ticks : List Char := [tick, tick, tick]

/-- Python `l.startswith(p)`: `p` is a leading segment of `l`. -/
def beginsWith : List Char → List Char → Bool
  | [], _ => true
  | _ :: _, [] => false
  | a :: as, b :: bs => a == b && beginsWith as bs

/-- Python `sep in l`: the pattern `sep` occurs contiguously in `l`. -/
def containsSeq (sep : List Char) : List Char → Bool
  | [] => beginsWith sep []
  | a :: t => beginsWith sep (a :: t) || containsSeq sep t

/-- Python `content.split("```")`: greedy left-to-right split on the
three-backtick separator, keeping empty segments. -/
def splitTicks : List Char → List (List Char)
  | a :: b :: c :: t =>
    if a = tick ∧ b = tick ∧ c = tick then
      [] :: splitTicks t
    else
      match splitTicks (b :: c :: t) with
      | [] => [[]]
      | s :: ss => (a :: s) :: ss
  | l => [l]

/-- Python `l.split(c)` for a single-character separator. -/
def splitChar (c : Char) : List Char → List (List Char)
  | [] => [[]]
  | a :: t =>
    match splitChar c t with
    | [] => [[]]
    | s :: ss => if a = c then [] :: s :: ss else (a :: s) :: ss

/-- Python `c.join(parts)` for a single-character joiner. -/
def joinWith (c : Char) : List (List Char) → List Char
  | [] => []
  | [s] => s
  | s :: ss => s ++ c :: joinWith c ss

/-- ASCII whitespace stripped by Python `str.strip()`. -/
def isPySpace (c : Char) : Bool :=
  c == ' ' || c == '\t' || c == '\n' || c == '\r' ||
  c == Char.ofNat 11 || c == Char.ofNat 12

/-- Python `s.strip()`: drop whitespace from both ends. -/
def stripChars (l : List Char) : List Char :=
  ((l.dropWhile isPySpace).reverse.dropWhile isPySpace).reverse

/-- Python `s.lower()` (ASCII case folding, which covers every check the
source performs). -/
def pyLower (l : List Char) : List Char := l.map Char.toLower

/-!  Source function `detect_content_type` (src/main.py lines 21-34).  -/

/-- Translation of `detect_content_type`: nested conditionals over the
stripped, lowered text (and, in the CSS rule, character membership tests
on the raw text, exactly as in the source). -/
def detect_content_type (content : List Char) : String × String :=
  let content_lower := pyLower (stripChars content)
  if beginsWith (chars ("<!doctype html")) content_lower ||
     beginsWith (chars ("<html")) content_lower then
    ("text/html", "html")
  else if beginsWith (chars ("\x7b")) content_lower ||
          beginsWith (chars ("[")) content_lower then
    ("application/json", "json")
  else if containsSeq (chars ("function")) content_lower ||
          containsSeq (chars ("const ")) content_lower ||
          containsSeq (chars ("var ")) content_lower then
    ("application/javascript", "js")
  else if beginsWith (chars ("@")) content_lower ||
          (content.contains lbrace && content.contains colon &&
           content.contains semi) then
    ("text/css", "css")
  else
    ("text/plain", "text")

/-!  Source function `clean_llm_response` (src/main.py lines 37-48).  -/

/-- The recognized language identifiers of the sanitizer. -/
def langTags : List (List Char) :=
  [chars ("html"), chars ("json"), chars ("javascript"), chars ("js"),
   chars ("css"), chars ("python"), chars ("xml")]

/-- Translation of `clean_llm_response`.  The Python loop over
`enumerate(parts)` returns at the first odd index, which exists exactly
when the split has at least two segments; the catch-all arm mirrors the
`return content` reached when the loop body never fires. -/
def clean_llm_response (content : List Char) : List Char :=
  if containsSeq ticks content then
    match splitTicks content with
    | _ :: part :: _ =>
      match splitChar nl (stripChars part) with
      | l0 :: rest =>
        if stripChars l0 ∈ langTags then joinWith nl rest
        else stripChars part
      | [] => stripChars part
    | _ => content
  else content

/-!  Python runtime values and `json.dumps(_, indent=2)`, needed by the
handler's prompt construction (src/main.py lines 74-75).  Floats are not
modelled; no claim depends on them.  -/

/-- A Python value as produced by `request.json()` or the raw-text
fallback: `none` is Python `None`. -/
inductive PyVal where
  | none : PyVal
  | bool : Bool → PyVal
  | int : Int → PyVal
  | str : List Char → PyVal
  | list : List PyVal → PyVal
  | dict : List (List Char × PyVal) → PyVal

/-- Python truth testing (`if body`): `None`, `False`, `0`, and the empty
string / list / dict are falsy. -/
def pyTruthy : PyVal → Bool
  | .none => false
  | .bool b => b
  | .int n => n != 0
  | .str s => !s.isEmpty
  | .list xs => !xs.isEmpty
  | .dict kvs => !kvs.isEmpty

/-- String escaping performed by `json.dumps` (the escapes that can occur
for the values this server handles). -/
def jsonEscape : List Char → List Char
  | [] => []
  | c :: t =>
    (if c = bslash then [bslash, bslash]
     else if c = dquote then [bslash, dquote]
     else if c = nl then [bslash, 'n']
     else if c = '\t' then [bslash, 't']
     else if c = '\r' then [bslash, 'r']
     else [c]) ++ jsonEscape t

/-- A newline followed by `n` spaces, the separator `json.dumps` emits
between members when `indent=2`. -/
def newlineIndent (n : Nat) : List Char := nl :: List.replicate n ' '

mutual

/-- Model of `json.dumps(v, indent=2)` at nesting indentation `ind`. -/
def dumpsV : PyVal → Nat → List Char
  | .none, _ => chars ("null")
  | .bool true, _ => chars ("true")
  | .bool false, _ => chars ("false")
  | .int n, _ => chars (toString n)
  | .str s, _ => dquote :: (jsonEscape s ++ [dquote])
  | .list [], _ => chars ("[]")
  | .list (x :: xs), ind =>
    chars ("[") ++ dumpsItems (x :: xs) (ind + 2) ++ newlineIndent ind ++ chars ("]")
  | .dict [], _ => chars ("\x7b\x7d")
  | .dict (kv :: kvs), ind =>
    chars ("\x7b") ++ dumpsPairs (kv :: kvs) (ind + 2) ++ newlineIndent ind ++ chars ("\x7d")

/-- List members of a JSON array, one per line. -/
def dumpsItems : List PyVal → Nat → List Char
  | [], _ => []
  | [x], ind => newlineIndent ind ++ dumpsV x ind
  | x :: xs, ind =>
    newlineIndent ind ++ dumpsV x ind ++ chars (",") ++ dumpsItems xs ind

/-- Key-value members of a JSON object, one per line. -/
def dumpsPairs : List (List Char × PyVal) → Nat → List Char
  | [], _ => []
  | [(k, v)], ind =>
    newlineIndent ind ++ (dquote :: (jsonEscape k ++ [dquote])) ++ chars (": ") ++ dumpsV v ind
  | (k, v) :: kvs, ind =>
    newlineIndent ind ++ (dquote :: (jsonEscape k ++ [dquote])) ++ chars (": ") ++
      dumpsV v ind ++ chars (",") ++ dumpsPairs kvs ind

end

/-- Serialization of the query-parameter dict, `json.dumps(query_params, indent=2)`. -/
def dumpsQuery (qp : List (List Char × List Char)) : List Char :=
  dumpsV (PyVal.dict (qp.map (fun kv => (kv.1, PyVal.str kv.2)))) 0

/-!  The prompt f-string of `catch_all` (src/main.py lines 69-111), cut at
its interpolation points.  -/

/-- Template text up to the method interpolation. -/
def promptHead : String :=
  "You are a web server. A request has come in and you must generate the appropriate content.\n\nREQUEST:\n- Method: "

/-- Template text between the method and the path interpolations. -/
def promptPathLabel : String := "\n- Path: /"

/-- Template text between the path and the query interpolations. -/
def promptQueryLabel : String := "\n- Query Parameters: "

/-- Template text between the query and the body interpolations. -/
def promptBodyLabel : String := "\n- Request Body: "

/-- Template text after the body interpolation. -/
def promptTail : String :=
  "\n\nYOUR TASK:\nAnalyze the path and generate appropriate content.\n\nRULES:\n- If path looks like a webpage (/, /home, /about, etc.) → generate complete HTML with CSS\n- If path suggests API (/api/*, /data/*, *.json) → generate JSON data\n- If path ends in .js → generate JavaScript code\n- If path ends in .css → generate CSS code\n- Return ONLY the content, no explanations or markdown\n\nFOR HTML PAGES - MODERN WEBSITE:\n- Use modern frameworks/libraries via CDN (public hosted URLs)\n- Can include: Three.js, React, Vue, D3.js, GSAP, anime.js, particles.js, etc.\n- Use CDN links like: unpkg.com, cdn.jsdelivr.net, cdnjs.cloudflare.com\n- Example: <script src=\"https://unpkg.com/three@0.160.0/build/three.min.js\"></script>\n- Example: <script crossorigin src=\"https://unpkg.com/react@18/umd/react.production.min.js\"></script>\n- Create interactive, animated, beautiful modern UI with gradients, shadows, animations\n- Make it functional and engaging with the CDN libraries\n\nIMAGES & MEDIA:\n- Always use public hosted images/media from: unsplash.com, picsum.photos, placeholder.com, or other free image services\n- Example: https://picsum.photos/800/600 for random images\n- Example: https://source.unsplash.com/random/800x600/?nature for themed images\n- Never use local paths - only public URLs\n\nICONS:\n- Always use public hosted icon libraries via CDN\n- Font Awesome: <link rel=\"stylesheet\" href=\"https://cdnjs.cloudflare.com/ajax/libs/font-awesome/6.4.0/css/all.min.css\">\n- Bootstrap Icons: <link rel=\"stylesheet\" href=\"https://cdn.jsdelivr.net/npm/bootstrap-icons@1.11.0/font/bootstrap-icons.css\">\n- Or use SVG icons from: heroicons.com, feathericons.com\n- Never use local icon files\n\nBe creative, functional, and unpredictable!\n\nGenerate now:"

/-- The prompt built by `catch_all`: the f-string with the four fills.
Query parameters and body render as `json.dumps(_, indent=2)` when truthy
and as the literal marker `None` otherwise. -/
def build_prompt (method : String) (full_path : List Char)
    (query_params : List (List Char × List Char)) (body : PyVal) : List Char :=
  chars (promptHead) ++ chars (method) ++ chars (promptPathLabel) ++ full_path ++
  chars (promptQueryLabel) ++
  (if query_params.isEmpty then chars ("None") else dumpsQuery query_params) ++
  chars (promptBodyLabel) ++
  (if pyTruthy body then dumpsV body 0 else chars ("None")) ++
  chars (promptTail)

/-!  The error page f-string of `catch_all` (src/main.py lines 131-176),
cut at its two interpolation points (`/{full_path}` and `{str(e)}`).
Literal braces of the CSS are written as their code points.  -/

/-- Error-page template text up to the path interpolation. -/
def errorHead : String :=
  "<!DOCTYPE html>\n<html>\n<head>\n    <title>Error</title>\n    <style>\n        body \x7b\n            font-family: -apple-system, BlinkMacSystemFont, 'Segoe UI', sans-serif;\n            max-width: 600px;\n            margin: 100px auto;\n            padding: 20px;\n            background: linear-gradient(135deg, #667eea 0%, #764ba2 100%);\n            min-height: 100vh;\n        \x7d\n        .error \x7b\n            background: white;\n            border-radius: 12px;\n            padding: 30px;\n            box-shadow: 0 20px 60px rgba(0,0,0,0.3);\n        \x7d\n        h1 \x7b color: #e74c3c; margin: 0 0 20px 0; \x7d\n        p \x7b color: #666; line-height: 1.6; \x7d\n        a \x7b \n            color: #667eea; \n            text-decoration: none;\n            font-weight: 600;\n        \x7d\n        a:hover \x7b text-decoration: underline; \x7d\n        .path \x7b \n            background: #f8f9fa;\n            padding: 10px;\n            border-radius: 4px;\n            font-family: monospace;\n            margin: 10px 0;\n        \x7d\n    </style>\n</head>\n<body>\n    <div class=\"error\">\n        <h1>⚠️ Generation Failed</h1>\n        <p><strong>Path:</strong></p>\n        <div class=\"path\">"

/-- Error-page template text between the path and the error message. -/
def errorMid : String := "</div>\n        <p><strong>Error:</strong> "

/-- Error-page template text after the error message. -/
def errorTail : String :=
  "</p>\n        <p><a href=\"/\">← Try Homepage</a></p>\n    </div>\n</body>\n</html>"

/-- The synthesized error page, `error_html` in the source; the path fill
is `/{full_path}`. -/
def error_html (full_path : List Char) (emsg : List Char) : List Char :=
  chars (errorHead) ++ (chars ("/") ++ full_path) ++ chars (errorMid) ++
  emsg ++ chars (errorTail)

/-!  The request handler `catch_all` (src/main.py lines 51-177).  The HTTP
framework, the JSON body parser and the generative-model client are the
external collaborators of the spec; the handler receives the outcome of
`await request.json()` and of the model invocation as data, and the raw
body bytes as a list of byte values.  -/

/-- A Python exception, reduced to its string representation `str(e)`. -/
structure PyErr where
  msg : List Char

/-- The exception raised by `bytes.decode()` on invalid UTF-8. -/
def utf8DecodeErr : PyErr := ⟨chars ("UnicodeDecodeError")⟩

/-- A stand-in for the exception raised by `await request.json()` when the
body is not valid JSON. -/
def jsonParseErr : PyErr := ⟨chars ("Expecting value: line 1 column 1 (char 0)")⟩

/-- Python `bytes.decode()` with the default strict UTF-8 codec: rejects
stray continuation bytes, overlong forms, surrogates and values beyond
U+10FFFF, exactly the inputs CPython rejects. -/
def utf8Decode : List Nat → Option (List Char)
  | [] => some []
  | b :: rest =>
    if b < 128 then
      match utf8Decode rest with
      | some cs => some (Char.ofNat b :: cs)
      | Option.none => Option.none
    else if b < 194 then Option.none
    else if b < 224 then
      match rest with
      | b1 :: r =>
        if 128 ≤ b1 ∧ b1 < 192 then
          match utf8Decode r with
          | some cs => some (Char.ofNat ((b - 192) * 64 + (b1 - 128)) :: cs)
          | Option.none => Option.none
        else Option.none
      | [] => Option.none
    else if b < 240 then
      match rest with
      | b1 :: b2 :: r =>
        if (if b = 224 then 160 ≤ b1 else 128 ≤ b1) ∧
           (if b = 237 then b1 < 160 else b1 < 192) ∧ 128 ≤ b2 ∧ b2 < 192 then
          match utf8Decode r with
          | some cs =>
            some (Char.ofNat ((b - 224) * 4096 + (b1 - 128) * 64 + (b2 - 128)) :: cs)
          | Option.none => Option.none
        else Option.none
      | _ => Option.none
    else if b < 245 then
      match rest with
      | b1 :: b2 :: b3 :: r =>
        if (if b = 240 then 144 ≤ b1 else 128 ≤ b1) ∧
           (if b = 244 then b1 < 144 else b1 < 192) ∧
           128 ≤ b2 ∧ b2 < 192 ∧ 128 ≤ b3 ∧ b3 < 192 then
          match utf8Decode r with
          | some cs =>
            some (Char.ofNat ((b - 240) * 262144 + (b1 - 128) * 4096 +
                  (b2 - 128) * 64 + (b3 - 128)) :: cs)
          | Option.none => Option.none
        else Option.none
      | _ => Option.none
    else Option.none

/-- Body extraction of `catch_all` (src/main.py lines 60-66): for
POST/PUT/PATCH, take the structured parse if it succeeded; otherwise fall
back to the decoded raw bytes (Python `None` when the bytes are empty).
`bytes.decode()` runs inside the `except` suite, so its own failure on
invalid UTF-8 propagates as an exception. -/
def extract_body (method : String) (jsonBody : Except PyErr PyVal)
    (rawBody : List Nat) : Except PyErr PyVal :=
  if method = "POST" ∨ method = "PUT" ∨ method = "PATCH" then
    match jsonBody with
    | .ok v => .ok v
    | .error _ =>
      if rawBody.isEmpty then .ok PyVal.none
      else
        match utf8Decode rawBody with
        | some s => .ok (PyVal.str s)
        | Option.none => .error utf8DecodeErr
  else .ok PyVal.none

/-- An HTTP response as built by the handler (`fastapi.responses.Response`). -/
structure HttpResponse where
  content : List Char
  media_type : String
  status_code : Nat

/-- Translation of `catch_all`: extract the body, build the prompt, invoke
the external model (`generate`, covering `GenerativeModel(...)`,
`generate_content` and the `.text` access), then on success sanitize,
classify and answer 200, and on any model exception answer the 500 error
page.  An exception of body extraction happens before the handler's
`try` block and therefore propagates (`Except.error`). -/
def catch_all (method : String) (full_path : List Char)
    (query_params : List (List Char × List Char))
    (jsonBody : Except PyErr PyVal) (rawBody : List Nat)
    (generate : List Char → Except PyErr (List Char)) :
    Except PyErr HttpResponse :=
  match extract_body method jsonBody rawBody with
  | .error e => .error e
  | .ok body =>
    match generate (build_prompt method full_path query_params body) with
    | .ok text =>
      let content := clean_llm_response text
      .ok ⟨content, (detect_content_type content).1, 200⟩
    | .error e => .ok ⟨error_html full_path e.msg, "text/html", 500⟩

/-!  The spec's restatement of the classifier as an ordered rule table
(spec sections 4.2 and 9), used to check the refinement part of claim C2.  -/

/-- Modelled from the spec: the five classification checks of section 4.2
as "an explicit ordered list of (predicate, MIME, tag) rules" (section 9);
the final catch-all rule is rule 5, `text/plain`. -/
def specRules : List ((List Char → Bool) × String × String) :=
  [(fun c => beginsWith (chars ("<!doctype html")) (pyLower (stripChars c)) ||
      beginsWith (chars ("<html")) (pyLower (stripChars c)), "text/html", "html"),
   (fun c => beginsWith (chars ("\x7b")) (pyLower (stripChars c)) ||
      beginsWith (chars ("[")) (pyLower (stripChars c)), "application/json", "json"),
   (fun c => containsSeq (chars ("function")) (pyLower (stripChars c)) ||
      containsSeq (chars ("const ")) (pyLower (stripChars c)) ||
      containsSeq (chars ("var ")) (pyLower (stripChars c)),
    "application/javascript", "js"),
   (fun c => beginsWith (chars ("@")) (pyLower (stripChars c)) ||
      (c.contains lbrace && c.contains colon && c.contains semi), "text/css", "css"),
   (fun _ => true, "text/plain", "text")]

/-- Modelled from the spec: evaluation of an ordered rule list "in sequence
with first-match-wins semantics"; the default is unreachable because the
last rule of `specRules` always matches. -/
def firstMatchRun :
    List ((List Char → Bool) × String × String) → List Char → String × String
  | [], _ => ("text/plain", "text")
  | (p, m, t) :: rs, c => if p c then (m, t) else firstMatchRun rs c

/-!  Lemmas about the string primitives.  -/

/-- A list begins with `p` exactly when it is `p` followed by a remainder. -/
theorem beginsWith_iff (p l : List Char) :
    beginsWith p l = true ↔ ∃ r, l = p ++ r := by
  induction p generalizing l with
  | nil => simp [beginsWith]
  | cons a as ih =>
    cases l with
    | nil => simp [beginsWith]
    | cons b bs =>
      simp only [beginsWith, Bool.and_eq_true, beq_iff_eq, ih, List.cons_append,
        List.cons.injEq]
      constructor
      · rintro ⟨rfl, r, rfl⟩; exact ⟨r, rfl, rfl⟩
      · rintro ⟨r, rfl, rfl⟩; exact ⟨rfl, r, rfl⟩

/-- Extending a list on the right preserves its leading segments. -/
theorem beginsWith_append (p l r : List Char) (h : beginsWith p l = true) :
    beginsWith p (l ++ r) = true := by
  obtain ⟨x, rfl⟩ := (beginsWith_iff p l).mp h
  exact (beginsWith_iff p (p ++ x ++ r)).mpr ⟨x ++ r, by simp⟩

/-- Mismatch in the first character refutes a leading-segment test. -/
theorem beginsWith_cons_false {x y : Char} (hxy : x ≠ y) (p l : List Char) :
    beginsWith (x :: p) (y :: l) = false := by
  have hb : (x == y) = false := by simp [hxy]
  simp [beginsWith, hb]

/-- A leading character unchanged by lowercasing survives `pyLower`. -/
theorem beginsWith_singleton_pyLower {c : Char} (hc : Char.toLower c = c)
    {l : List Char} (h : beginsWith [c] l = true) :
    beginsWith [c] (pyLower l) = true := by
  obtain ⟨r, rfl⟩ := (beginsWith_iff [c] l).mp h
  refine (beginsWith_iff [c] _).mpr ⟨pyLower r, ?_⟩
  simp [pyLower, hc]

/-- A pattern occurs in a list exactly when the list decomposes around it. -/
theorem containsSeq_iff (s l : List Char) :
    containsSeq s l = true ↔ ∃ u v, l = u ++ s ++ v := by
  induction l with
  | nil =>
    simp only [containsSeq, beginsWith_iff]
    constructor
    · rintro ⟨r, hr⟩
      refine ⟨[], [], ?_⟩
      rw [List.nil_append]
      cases s with
      | nil => simp
      | cons x xs => simp at hr
    · rintro ⟨u, v, huv⟩
      rcases List.append_eq_nil.mp huv.symm with ⟨h1, h2⟩
      rcases List.append_eq_nil.mp h1 with ⟨h3, h4⟩
      exact ⟨[], by simp [h4]⟩
  | cons a t ih =>
    simp only [containsSeq, Bool.or_eq_true, beginsWith_iff, ih]
    constructor
    · rintro (⟨r, hr⟩ | ⟨u, v, rfl⟩)
      · exact ⟨[], r, by simpa using hr⟩
      · exact ⟨a :: u, v, by simp⟩
    · rintro ⟨u, v, huv⟩
      cases u with
      | nil => exact Or.inl ⟨v, by simpa using huv⟩
      | cons x u' =>
        simp only [List.cons_append, List.cons.injEq] at huv
        exact Or.inr ⟨u', v, huv.2⟩

/-- Every list contains itself. -/
theorem containsSeq_self (s : List Char) : containsSeq s s = true :=
  (containsSeq_iff s s).mpr ⟨[], [], by simp⟩

/-- An occurrence survives surrounding the list on both sides. -/
theorem containsSeq_mono_append {s m : List Char} (u v : List Char)
    (h : containsSeq s m = true) : containsSeq s (u ++ m ++ v) = true := by
  obtain ⟨x, y, rfl⟩ := (containsSeq_iff s m).mp h
  exact (containsSeq_iff s _).mpr ⟨u ++ x, y ++ v, by simp⟩

/-- An occurrence of a longer pattern yields one of its middle part. -/
theorem containsSeq_weaken {s l : List Char} (x y : List Char)
    (h : containsSeq (x ++ s ++ y) l = true) : containsSeq s l = true := by
  obtain ⟨u, v, rfl⟩ := (containsSeq_iff _ l).mp h
  exact (containsSeq_iff s _).mpr ⟨u ++ x, y ++ v, by simp⟩

/-- Characterization of a leading fence delimiter. -/
theorem beginsWith_ticks_iff (a b c : Char) (t : List Char) :
    beginsWith ticks (a :: b :: c :: t) = true ↔ (a = tick ∧ b = tick ∧ c = tick) := by
  simp only [ticks, beginsWith, Bool.and_eq_true, beq_iff_eq, Bool.and_true, and_true]
  constructor
  · rintro ⟨h1, h2, h3⟩; exact ⟨h1.symm, h2.symm, h3.symm⟩
  · rintro ⟨h1, h2, h3⟩; exact ⟨h1.symm, h2.symm, h3.symm⟩

/-- The split always produces at least one segment. -/
theorem splitTicks_ne_nil (l : List Char) : splitTicks l ≠ [] := by
  match l with
  | [] => simp [splitTicks]
  | [a] => simp [splitTicks]
  | [a, b] => simp [splitTicks]
  | a :: b :: c :: t =>
    by_cases habc : a = tick ∧ b = tick ∧ c = tick
    · simp [splitTicks, habc]
    · have hstep : splitTicks (a :: b :: c :: t) =
          match splitTicks (b :: c :: t) with
          | [] => [[]]
          | s :: ss => (a :: s) :: ss := by
        simp [splitTicks, habc]
      rw [hstep]
      cases hx : splitTicks (b :: c :: t) <;> simp

/-- Structure of the greedy split: either the whole list is a single
fence-free segment, or it opens with a fence-free segment followed by the
delimiter and the split continues on the remainder. -/
theorem splitTicks_shape (l : List Char) :
    (splitTicks l = [l] ∧ containsSeq ticks l = false) ∨
    (∃ p r, splitTicks l = p :: splitTicks r ∧ l = p ++ ticks ++ r ∧
      containsSeq ticks p = false) := by
  have key : ∀ n, ∀ l : List Char, l.length ≤ n →
      (splitTicks l = [l] ∧ containsSeq ticks l = false) ∨
      (∃ p r, splitTicks l = p :: splitTicks r ∧ l = p ++ ticks ++ r ∧
        containsSeq ticks p = false) := by
    intro n
    induction n with
    | zero =>
      intro l hl
      have hnil : l = [] := List.length_eq_zero.mp (Nat.le_zero.mp hl)
      subst hnil
      exact Or.inl ⟨rfl, by decide⟩
    | succ n ih =>
      intro l hl
      match l with
      | [] => exact Or.inl ⟨rfl, by decide⟩
      | [a] =>
        refine Or.inl ⟨rfl, ?_⟩
        simp [containsSeq, beginsWith, ticks]
      | [a, b] =>
        refine Or.inl ⟨rfl, ?_⟩
        simp [containsSeq, beginsWith, ticks]
      | a :: b :: c :: t =>
        by_cases habc : a = tick ∧ b = tick ∧ c = tick
        · refine Or.inr ⟨[], t, ?_, ?_, by decide⟩
          · simp [splitTicks, habc]
          · obtain ⟨rfl, rfl, rfl⟩ := habc
            simp [ticks]
        · obtain ⟨s, ss, heq⟩ : ∃ s ss, splitTicks (b :: c :: t) = s :: ss := by
            cases hx : splitTicks (b :: c :: t) with
            | nil => exact absurd hx (splitTicks_ne_nil _)
            | cons s ss => exact ⟨s, ss, rfl⟩
          have hL : splitTicks (a :: b :: c :: t) = (a :: s) :: ss := by
            simp [splitTicks, habc, heq]
          have hlen : (b :: c :: t).length ≤ n := by
            simp at hl ⊢; omega
          have hbegins : beginsWith ticks (a :: b :: c :: t) = false := by
            cases hx : beginsWith ticks (a :: b :: c :: t)
            · rfl
            · exact absurd ((beginsWith_ticks_iff a b c t).mp hx) habc
          have hcons : containsSeq ticks (a :: b :: c :: t) =
              (beginsWith ticks (a :: b :: c :: t) ||
               containsSeq ticks (b :: c :: t)) := rfl
          rcases ih (b :: c :: t) hlen with ⟨h1, h2⟩ | ⟨p, r, hp1, hp2, hp3⟩
          · rw [h1] at heq
            injection heq with hs hss
            subst hs
            subst hss
            refine Or.inl ⟨hL, ?_⟩
            rw [hcons, hbegins, h2]
            rfl
          · rw [hp1] at heq
            injection heq with hs hss
            refine Or.inr ⟨a :: p, r, ?_, ?_, ?_⟩
            · rw [hL, hs, hss]
            · rw [hp2]; simp
            · have hcp : containsSeq ticks (a :: p) =
                  (beginsWith ticks (a :: p) || containsSeq ticks p) := rfl
              rw [hcp, hp3]
              suffices hb : beginsWith ticks (a :: p) = false by rw [hb]; rfl
              by_contra hbne
              rw [Bool.not_eq_false] at hbne
              have hx := beginsWith_append ticks (a :: p) (ticks ++ r) hbne
              have hy : (a :: p) ++ (ticks ++ r) = a :: b :: c :: t := by
                rw [hp2]; simp [List.append_assoc]
              rw [hy] at hx
              exact absurd ((beginsWith_ticks_iff a b c t).mp hx) habc
  exact key l.length l le_rfl

/-- No segment produced by the split contains the fence delimiter. -/
theorem noTicks_splitTicks : ∀ (l p : List Char), p ∈ splitTicks l →
    containsSeq ticks p = false := by
  have key : ∀ n, ∀ l : List Char, l.length ≤ n → ∀ p ∈ splitTicks l,
      containsSeq ticks p = false := by
    intro n
    induction n with
    | zero =>
      intro l hl p hp
      have hnil : l = [] := List.length_eq_zero.mp (Nat.le_zero.mp hl)
      subst hnil
      have hsp : splitTicks ([] : List Char) = [[]] := rfl
      rw [hsp] at hp
      simp at hp
      subst hp
      decide
    | succ n ih =>
      intro l hl p hp
      rcases splitTicks_shape l with ⟨h1, h2⟩ | ⟨q, r, hq1, hq2, hq3⟩
      · rw [h1] at hp
        simp at hp
        subst hp
        exact h2
      · rw [hq1] at hp
        rcases List.mem_cons.mp hp with rfl | hp'
        · exact hq3
        · refine ih r ?_ p hp'
          have hlr : l.length = q.length + 3 + r.length := by
            simp [hq2, ticks]; omega
          omega
  exact fun l => key l.length l le_rfl

/-- A text containing a fence splits into at least two segments. -/
theorem splitTicks_two_of_contains {l : List Char}
    (h : containsSeq ticks l = true) :
    ∃ p0 p1 rest, splitTicks l = p0 :: p1 :: rest := by
  rcases splitTicks_shape l with ⟨_, h2⟩ | ⟨q, r, hq1, _, _⟩
  · rw [h2] at h; simp at h
  · obtain ⟨s, ss, hs⟩ : ∃ s ss, splitTicks r = s :: ss := by
      cases hx : splitTicks r with
      | nil => exact absurd hx (splitTicks_ne_nil _)
      | cons s ss => exact ⟨s, ss, rfl⟩
    exact ⟨q, s, ss, by rw [hq1, hs]⟩

/-- Conversely, a split with two or more segments witnesses a fence. -/
theorem contains_of_splitTicks_two {l p0 p1 : List Char} {rest : List (List Char)}
    (h : splitTicks l = p0 :: p1 :: rest) : containsSeq ticks l = true := by
  rcases splitTicks_shape l with ⟨h1, _⟩ | ⟨q, r, _, hq2, _⟩
  · rw [h1] at h; simp at h
  · rw [hq2]
    exact containsSeq_mono_append q r (containsSeq_self ticks)

/-- Stripping returns a contiguous middle piece of the input. -/
theorem stripChars_mid (l : List Char) : ∃ u v, l = u ++ stripChars l ++ v := by
  unfold stripChars
  refine ⟨l.takeWhile isPySpace,
    ((l.dropWhile isPySpace).reverse.takeWhile isPySpace).reverse, ?_⟩
  conv_lhs => rw [← List.takeWhile_append_dropWhile (p := isPySpace) (l := l)]
  rw [List.append_assoc]
  congr 1
  have h := List.takeWhile_append_dropWhile (p := isPySpace)
    (l := (l.dropWhile isPySpace).reverse)
  calc l.dropWhile isPySpace
      = (l.dropWhile isPySpace).reverse.reverse := by rw [List.reverse_reverse]
    _ = ((l.dropWhile isPySpace).reverse.takeWhile isPySpace ++
         (l.dropWhile isPySpace).reverse.dropWhile isPySpace).reverse := by rw [h]
    _ = _ := by rw [List.reverse_append]

/-- Stripping cannot introduce a fence. -/
theorem noTicks_stripChars {l : List Char} (h : containsSeq ticks l = false) :
    containsSeq ticks (stripChars l) = false := by
  cases hx : containsSeq ticks (stripChars l) with
  | false => rfl
  | true =>
    obtain ⟨u, v, huv⟩ := stripChars_mid l
    have hall := containsSeq_mono_append u v hx
    rw [← huv] at hall
    rw [hall] at h
    simp at h

/-- The line split always produces at least one line. -/
theorem splitChar_ne_nil (c : Char) (l : List Char) : splitChar c l ≠ [] := by
  cases l with
  | nil => simp [splitChar]
  | cons a t =>
    have hstep : splitChar c (a :: t) =
        match splitChar c t with
        | [] => [[]]
        | s :: ss => if a = c then [] :: s :: ss else (a :: s) :: ss := rfl
    rw [hstep]
    cases hx : splitChar c t with
    | nil => simp
    | cons s ss =>
      by_cases hac : a = c <;> simp [hac]

/-- Joining on the last non-singleton pattern. -/
theorem joinWith_cons (c : Char) (s : List Char) (ss : List (List Char))
    (h : ss ≠ []) : joinWith c (s :: ss) = s ++ c :: joinWith c ss := by
  cases ss with
  | nil => exact absurd rfl h
  | cons x xs => rfl

/-- Joining the line split on the same character recovers the input. -/
theorem joinWith_splitChar (c : Char) (l : List Char) :
    joinWith c (splitChar c l) = l := by
  induction l with
  | nil => rfl
  | cons a t ih =>
    have hstep : splitChar c (a :: t) =
        match splitChar c t with
        | [] => [[]]
        | s :: ss => if a = c then [] :: s :: ss else (a :: s) :: ss := rfl
    cases hx : splitChar c t with
    | nil => exact absurd hx (splitChar_ne_nil c t)
    | cons s ss =>
      rw [hx] at ih
      rw [hstep, hx]
      show joinWith c (if a = c then [] :: s :: ss else (a :: s) :: ss) = a :: t
      by_cases hac : a = c
      · subst hac
        have hif : (if a = a then [] :: s :: ss else (a :: s) :: ss) = [] :: s :: ss :=
          if_pos rfl
        rw [hif, joinWith_cons a [] (s :: ss) (by simp)]
        simp [ih]
      · simp only [if_neg hac]
        cases ss with
        | nil =>
          simp only [joinWith] at ih ⊢
          rw [ih]
        | cons y ys =>
          rw [joinWith_cons c (a :: s) (y :: ys) (by simp)]
          rw [joinWith_cons c s (y :: ys) (by simp)] at ih
          rw [← ih]
          simp

/-!  Lemmas about the sanitizer.  -/

/-- Fence-free text passes through the sanitizer unchanged. -/
theorem clean_of_noTicks {s : List Char} (h : containsSeq ticks s = false) :
    clean_llm_response s = s := by
  simp [clean_llm_response, h]

/-- The sanitizer on fenced input, by cases on the language-tag test of
the first block's first line. -/
theorem clean_eq_cases {s p0 p1 : List Char} {rest : List (List Char)}
    (hsplit : splitTicks s = p0 :: p1 :: rest)
    {l0 : List Char} {ls : List (List Char)}
    (hlines : splitChar nl (stripChars p1) = l0 :: ls) :
    (stripChars l0 ∈ langTags → clean_llm_response s = joinWith nl ls) ∧
    (stripChars l0 ∉ langTags → clean_llm_response s = stripChars p1) := by
  have hc : containsSeq ticks s = true := contains_of_splitTicks_two hsplit
  constructor <;> intro htag <;>
    simp [clean_llm_response, hc, hsplit, hlines, htag]

/-- The sanitizer's output never contains the fence delimiter. -/
theorem clean_noTicksOut (s : List Char) :
    containsSeq ticks (clean_llm_response s) = false := by
  cases hc : containsSeq ticks s with
  | false => rw [clean_of_noTicks hc]; exact hc
  | true =>
    obtain ⟨p0, p1, rest, hsplit⟩ := splitTicks_two_of_contains hc
    have hp1 : containsSeq ticks p1 = false :=
      noTicks_splitTicks s p1 (by rw [hsplit]; simp)
    have hst : containsSeq ticks (stripChars p1) = false := noTicks_stripChars hp1
    obtain ⟨l0, ls, hlines⟩ : ∃ l0 ls, splitChar nl (stripChars p1) = l0 :: ls := by
      cases hx : splitChar nl (stripChars p1) with
      | nil => exact absurd hx (splitChar_ne_nil _ _)
      | cons l0 ls => exact ⟨l0, ls, rfl⟩
    obtain ⟨htag, hnotag⟩ := clean_eq_cases hsplit hlines
    by_cases ht : stripChars l0 ∈ langTags
    · rw [htag ht]
      cases ls with
      | nil => decide
      | cons r1 rs =>
        have hj : stripChars p1 = (l0 ++ [nl]) ++ joinWith nl (r1 :: rs) := by
          have hjs := joinWith_splitChar nl (stripChars p1)
          rw [hlines] at hjs
          rw [joinWith_cons nl l0 (r1 :: rs) (by simp)] at hjs
          rw [← hjs]
          simp
        cases hx : containsSeq ticks (joinWith nl (r1 :: rs)) with
        | false => rfl
        | true =>
          have hall := containsSeq_mono_append (l0 ++ [nl]) [] hx
          rw [List.append_nil, ← hj] at hall
          rw [hall] at hst
          simp at hst
    · rw [hnotag ht]; exact hst

/-- Python `None` is falsy. -/
theorem pyTruthy_none : pyTruthy PyVal.none = false := rfl

/-!  Claim theorems.  -/

/-- C3: for every input containing a triple-backtick fence, the sanitizer
takes the interior of the first fenced block (the first odd-indexed
segment of the split); when that block's first line, trimmed, is exactly
one of the recognized language tags it drops that line and returns the
remaining lines joined; in particular sanitizing
`"```html\n<p>hi</p>\n```"` yields `"<p>hi</p>"`. -/
theorem C3_tagged_first_block :
    (∀ (s p0 p1 : List Char) (rest : List (List Char)) (l0 : List Char)
        (ls : List (List Char)),
        splitTicks s = p0 :: p1 :: rest →
        splitChar nl (stripChars p1) = l0 :: ls →
        stripChars l0 ∈ langTags →
        clean_llm_response s = joinWith nl ls) ∧
    clean_llm_response (chars ("```html\n<p>hi</p>\n```")) = chars ("<p>hi</p>") := by
  constructor
  · intro s p0 p1 rest l0 ls hsplit hlines htag
    exact (clean_eq_cases hsplit hlines).1 htag
  · decide

/-- Witness for C3: a concrete fenced input with the `js` language tag,
with every hypothesis discharged by evaluation. -/
theorem C3_witness :
    splitTicks (chars ("```js\nf()\n```")) = [[], chars ("js\nf()\n"), []] ∧
    splitChar nl (stripChars (chars ("js\nf()\n"))) = [chars ("js"), chars ("f()")] ∧
    stripChars (chars ("js")) ∈ langTags ∧
    clean_llm_response (chars ("```js\nf()\n```")) = chars ("f()") :=
  ⟨by decide, by decide, by decide,
   C3_tagged_first_block.1 (chars ("```js\nf()\n```")) [] (chars ("js\nf()\n"))
     [[]] (chars ("js")) [chars ("f()")] (by decide) (by decide) (by decide)⟩

/-- C4: only the first fenced block's interior is ever returned — the
sanitizer's output is a function of the first odd-indexed segment alone —
and when the block's first line is not a recognized language tag the
whole block is returned trimmed, including that first line; in particular
sanitizing `"```\n{"a":1}\n```"` yields `"{"a":1}"`. -/
theorem C4_only_first_block :
    (∀ (s s' p0 p0' p1 : List Char) (rest rest' : List (List Char)),
        splitTicks s = p0 :: p1 :: rest →
        splitTicks s' = p0' :: p1 :: rest' →
        clean_llm_response s = clean_llm_response s') ∧
    (∀ (s p0 p1 : List Char) (rest : List (List Char)) (l0 : List Char)
        (ls : List (List Char)),
        splitTicks s = p0 :: p1 :: rest →
        splitChar nl (stripChars p1) = l0 :: ls →
        stripChars l0 ∉ langTags →
        clean_llm_response s = stripChars p1) ∧
    clean_llm_response (chars ("```\n\x7b\"a\":1\x7d\n```")) =
      chars ("\x7b\"a\":1\x7d") := by
  refine ⟨?_, ?_, by decide⟩
  · intro s s' p0 p0' p1 rest rest' h h'
    obtain ⟨l0, ls, hlines⟩ : ∃ l0 ls, splitChar nl (stripChars p1) = l0 :: ls := by
      cases hx : splitChar nl (stripChars p1) with
      | nil => exact absurd hx (splitChar_ne_nil _ _)
      | cons l0 ls => exact ⟨l0, ls, rfl⟩
    by_cases ht : stripChars l0 ∈ langTags
    · rw [(clean_eq_cases h hlines).1 ht, (clean_eq_cases h' hlines).1 ht]
    · rw [(clean_eq_cases h hlines).2 ht, (clean_eq_cases h' hlines).2 ht]
  · intro s p0 p1 rest l0 ls h hl ht
    exact (clean_eq_cases h hl).2 ht

/-- Witness for C4: two inputs with different surroundings and trailing
blocks but the same first fenced block sanitize identically. -/
theorem C4_witness :
    splitTicks (chars ("pre```block```post")) =
      [chars ("pre"), chars ("block"), chars ("post")] ∧
    splitTicks (chars ("```block```x```y")) =
      [[], chars ("block"), chars ("x"), chars ("y")] ∧
    clean_llm_response (chars ("pre```block```post")) =
      clean_llm_response (chars ("```block```x```y")) :=
  ⟨by decide, by decide,
   C4_only_first_block.1 (chars ("pre```block```post")) (chars ("```block```x```y"))
     (chars ("pre")) [] (chars ("block")) [chars ("post")]
     [chars ("x"), chars ("y")] (by decide) (by decide)⟩

/-- C7: for every input string containing no triple-backtick fence
delimiter, the sanitizer returns the input unchanged. -/
theorem C7_no_fence_identity (s : List Char)
    (h : containsSeq ticks s = false) : clean_llm_response s = s :=
  clean_of_noTicks h

/-- Witness for C7 at a concrete fence-free input. -/
theorem C7_witness :
    containsSeq ticks (chars ("plain text, no fences")) = false ∧
    clean_llm_response (chars ("plain text, no fences")) =
      chars ("plain text, no fences") :=
  ⟨by decide, C7_no_fence_identity (chars ("plain text, no fences")) (by decide)⟩

/-- C9: the sanitizer is idempotent on every input: output produced from a
fenced input never contains the fence delimiter, and fence-free text is
returned unchanged, so a second application is the identity. -/
theorem C9_sanitizer_idempotent (s : List Char) :
    clean_llm_response (clean_llm_response s) = clean_llm_response s :=
  clean_of_noTicks (clean_noTicksOut s)

/-- C2: every input whose trimmed text starts with an opening brace or
bracket classifies as `application/json` with tag `json`, regardless of
any `function`, `const `, or `var ` substrings (the JSON check precedes
the JavaScript check); and in general the classifier equals first-match
evaluation of the spec's ordered five-rule table. -/
theorem C2_json_priority :
    (∀ content : List Char,
        beginsWith (chars ("\x7b")) (stripChars content) = true ∨
        beginsWith (chars ("[")) (stripChars content) = true →
        detect_content_type content = ("application/json", "json")) ∧
    (∀ content : List Char,
        detect_content_type content = firstMatchRun specRules content) := by
  constructor
  · intro content h
    have hlow : beginsWith (chars ("\x7b")) (pyLower (stripChars content)) = true ∨
        beginsWith (chars ("[")) (pyLower (stripChars content)) = true := by
      rcases h with h | h
      · exact Or.inl (by
          rw [show chars ("\x7b") = [lbrace] from rfl] at h ⊢
          exact beginsWith_singleton_pyLower (by decide) h)
      · exact Or.inr (by
          rw [show chars ("[") = ['['] from rfl] at h ⊢
          exact beginsWith_singleton_pyLower (by decide) h)
    rcases hlow with h' | h'
    · obtain ⟨r, hr⟩ := (beginsWith_iff _ _).mp h'
      have hcl : pyLower (stripChars content) = lbrace :: r := by rw [hr]; rfl
      have hd1 : beginsWith (chars ("<!doctype html")) (lbrace :: r) = false := by
        rw [show chars ("<!doctype html") = '<' :: chars ("!doctype html") from rfl]
        exact beginsWith_cons_false (by decide) _ r
      have hd2 : beginsWith (chars ("<html")) (lbrace :: r) = false := by
        rw [show chars ("<html") = '<' :: chars ("html") from rfl]
        exact beginsWith_cons_false (by decide) _ r
      have hj : beginsWith (chars ("\x7b")) (lbrace :: r) = true := by
        rw [show chars ("\x7b") = [lbrace] from rfl]
        simp [beginsWith]
      simp [detect_content_type, hcl, hd1, hd2, hj]
    · obtain ⟨r, hr⟩ := (beginsWith_iff _ _).mp h'
      have hcl : pyLower (stripChars content) = '[' :: r := by rw [hr]; rfl
      have hd1 : beginsWith (chars ("<!doctype html")) ('[' :: r) = false := by
        rw [show chars ("<!doctype html") = '<' :: chars ("!doctype html") from rfl]
        exact beginsWith_cons_false (by decide) _ r
      have hd2 : beginsWith (chars ("<html")) ('[' :: r) = false := by
        rw [show chars ("<html") = '<' :: chars ("html") from rfl]
        exact beginsWith_cons_false (by decide) _ r
      have hj : beginsWith (chars ("[")) ('[' :: r) = true := by
        rw [show chars ("[") = ['['] from rfl]
        simp [beginsWith]
      simp [detect_content_type, hcl, hd1, hd2, hj]
  · intro content
    rfl

/-- Witness for C2: text that starts with a brace and contains `function`,
`const `, and `var ` still classifies as JSON. -/
theorem C2_witness :
    detect_content_type (chars ("\x7b \"x\": \"function const var \" \x7d")) =
      ("application/json", "json") :=
  C2_json_priority.1 _ (Or.inl (by decide))

/-- C6: for inputs matching none of the HTML, JSON, or JavaScript rules,
the classifier answers `text/css` exactly when the trimmed text starts
with `@` or the raw text contains `{`, `:`, and `;` simultaneously, and
`text/plain` otherwise; in particular the CSS and plain examples. -/
theorem C6_css_or_text (content : List Char)
    (h1 : beginsWith (chars ("<!doctype html")) (pyLower (stripChars content)) = false)
    (h2 : beginsWith (chars ("<html")) (pyLower (stripChars content)) = false)
    (h3 : beginsWith (chars ("\x7b")) (pyLower (stripChars content)) = false)
    (h4 : beginsWith (chars ("[")) (pyLower (stripChars content)) = false)
    (h5 : containsSeq (chars ("function")) (pyLower (stripChars content)) = false)
    (h6 : containsSeq (chars ("const ")) (pyLower (stripChars content)) = false)
    (h7 : containsSeq (chars ("var ")) (pyLower (stripChars content)) = false) :
    (detect_content_type content = ("text/css", "css") ↔
      (beginsWith (chars ("@")) (pyLower (stripChars content)) = true ∨
        (content.contains lbrace && content.contains colon &&
         content.contains semi) = true)) ∧
    ((beginsWith (chars ("@")) (pyLower (stripChars content)) ||
      (content.contains lbrace && content.contains colon &&
       content.contains semi)) = false →
      detect_content_type content = ("text/plain", "text")) := by
  have heval : detect_content_type content =
      (if (beginsWith (chars ("@")) (pyLower (stripChars content)) ||
           (content.contains lbrace && content.contains colon &&
            content.contains semi)) then ("text/css", "css")
       else ("text/plain", "text")) := by
    simp [detect_content_type, h1, h2, h3, h4, h5, h6, h7]
  constructor
  · rw [heval]
    constructor
    · intro hres
      cases hcond : (beginsWith (chars ("@")) (pyLower (stripChars content)) ||
          (content.contains lbrace && content.contains colon &&
           content.contains semi)) with
      | true => simpa only [Bool.or_eq_true] using hcond
      | false => rw [hcond] at hres; simp at hres
    · intro hor
      have hcond : (beginsWith (chars ("@")) (pyLower (stripChars content)) ||
          (content.contains lbrace && content.contains colon &&
           content.contains semi)) = true := by
        simpa only [Bool.or_eq_true] using hor
      rw [hcond]
      simp
  · intro hfalse
    rw [heval, hfalse]
    simp

/-- Witness for C6 at the spec's two examples. -/
theorem C6_witness :
    detect_content_type (chars ("@media screen \x7b color: red; \x7d")) =
      ("text/css", "css") ∧
    detect_content_type (chars ("hello world")) = ("text/plain", "text") :=
  ⟨(C6_css_or_text (chars ("@media screen \x7b color: red; \x7d"))
      (by decide) (by decide) (by decide) (by decide) (by decide) (by decide)
      (by decide)).1.mpr (Or.inl (by decide)),
   (C6_css_or_text (chars ("hello world"))
      (by decide) (by decide) (by decide) (by decide) (by decide) (by decide)
      (by decide)).2 (by decide)⟩

/-- C8: for a GET request to `/about` with no query parameters and no
body, the prompt contains the literal substrings `Method: GET`,
`Path: /about`, and `Query Parameters: None`; in general, empty query
parameters and an absent body render as the marker `None`. -/
theorem C8_prompt_markers :
    (containsSeq (chars ("Method: GET"))
        (build_prompt "GET" (chars ("about")) [] PyVal.none) = true ∧
     containsSeq (chars ("Path: /about"))
        (build_prompt "GET" (chars ("about")) [] PyVal.none) = true ∧
     containsSeq (chars ("Query Parameters: None"))
        (build_prompt "GET" (chars ("about")) [] PyVal.none) = true) ∧
    (∀ (method : String) (fp : List Char),
      containsSeq (chars ("Query Parameters: None"))
        (build_prompt method fp [] PyVal.none) = true ∧
      containsSeq (chars ("Request Body: None"))
        (build_prompt method fp [] PyVal.none) = true) := by
  constructor
  · exact ⟨by decide, by decide, by decide⟩
  · intro method fp
    constructor
    · have hsplit : build_prompt method fp [] PyVal.none =
          (chars (promptHead) ++ chars (method) ++ chars (promptPathLabel) ++ fp) ++
          (chars (promptQueryLabel) ++ chars ("None")) ++
          (chars (promptBodyLabel) ++ chars ("None") ++ chars (promptTail)) := by
        simp [build_prompt, pyTruthy_none, List.append_assoc]
      rw [hsplit]
      exact containsSeq_mono_append _ _ (by decide)
    · have hsplit : build_prompt method fp [] PyVal.none =
          (chars (promptHead) ++ chars (method) ++ chars (promptPathLabel) ++ fp ++
           chars (promptQueryLabel) ++ chars ("None")) ++
          (chars (promptBodyLabel) ++ chars ("None")) ++ chars (promptTail) := by
        simp [build_prompt, pyTruthy_none, List.append_assoc]
      rw [hsplit]
      exact containsSeq_mono_append _ _ (by decide)

/-- C10: a body that parses to a Python-falsy value (empty string, empty
object or array, `0`, `false`, or `null`) renders as `Request Body: None`,
yielding exactly the prompt of an absent body; and for POST/PUT/PATCH such
a parsed value is what body extraction hands the prompt builder. -/
theorem C10_falsy_body (method : String) (fp : List Char)
    (qp : List (List Char × List Char)) (v : PyVal)
    (hfalsy : pyTruthy v = false) :
    build_prompt method fp qp v = build_prompt method fp qp PyVal.none ∧
    containsSeq (chars ("Request Body: None"))
      (build_prompt method fp qp v) = true ∧
    (∀ raw : List Nat, method = "POST" ∨ method = "PUT" ∨ method = "PATCH" →
      extract_body method (Except.ok v) raw = Except.ok v) := by
  refine ⟨?_, ?_, ?_⟩
  · simp [build_prompt, hfalsy, pyTruthy_none]
  · have hsplit : build_prompt method fp qp v =
        (chars (promptHead) ++ chars (method) ++ chars (promptPathLabel) ++ fp ++
         chars (promptQueryLabel) ++
         (if qp.isEmpty then chars ("None") else dumpsQuery qp)) ++
        (chars (promptBodyLabel) ++ chars ("None")) ++ chars (promptTail) := by
      simp [build_prompt, hfalsy, List.append_assoc]
    rw [hsplit]
    exact containsSeq_mono_append _ _ (by decide)
  · intro raw hm
    simp [extract_body, hm]

/-- Witness for C10 at an empty JSON object body in a POST request. -/
theorem C10_witness :
    pyTruthy (PyVal.dict []) = false ∧
    (build_prompt "POST" (chars ("x")) [] (PyVal.dict []) =
       build_prompt "POST" (chars ("x")) [] PyVal.none ∧
     containsSeq (chars ("Request Body: None"))
       (build_prompt "POST" (chars ("x")) [] (PyVal.dict [])) = true ∧
     (∀ raw : List Nat, "POST" = "POST" ∨ "POST" = "PUT" ∨ "POST" = "PATCH" →
       extract_body "POST" (Except.ok (PyVal.dict [])) raw =
         Except.ok (PyVal.dict []))) :=
  ⟨rfl, C10_falsy_body "POST" (chars ("x")) [] (PyVal.dict []) rfl⟩

/-- C1 (amended): for every request whose body extraction does not raise,
the handler returns exactly one HTTP response: on model success a
status-200 response carrying the sanitized text under the classifier's
content type, and on any model exception a status-500 `text/html` page
containing the requested path and the error's string representation; the
single `generate` call site embodies the absence of retries, and the
error case still yields a normal response, never a propagated failure. -/
theorem C1_single_response (method : String) (fp : List Char)
    (qp : List (List Char × List Char)) (jsonBody : Except PyErr PyVal)
    (raw : List Nat) (generate : List Char → Except PyErr (List Char))
    (body : PyVal) (hbody : extract_body method jsonBody raw = Except.ok body) :
    ∃ r : HttpResponse,
      catch_all method fp qp jsonBody raw generate = Except.ok r ∧
      (∀ t, generate (build_prompt method fp qp body) = Except.ok t →
        r.content = clean_llm_response t ∧
        r.media_type = (detect_content_type (clean_llm_response t)).1 ∧
        r.status_code = 200) ∧
      (∀ e, generate (build_prompt method fp qp body) = Except.error e →
        r.status_code = 500 ∧ r.media_type = "text/html" ∧
        containsSeq (chars ("/") ++ fp) r.content = true ∧
        containsSeq e.msg r.content = true) := by
  have hcall : catch_all method fp qp jsonBody raw generate =
      match generate (build_prompt method fp qp body) with
      | .ok text => .ok ⟨clean_llm_response text,
          (detect_content_type (clean_llm_response text)).1, 200⟩
      | .error e => .ok ⟨error_html fp e.msg, "text/html", 500⟩ := by
    unfold catch_all
    rw [hbody]
  rw [hcall]
  cases hg : generate (build_prompt method fp qp body) with
  | ok t =>
    refine ⟨_, rfl, ?_, ?_⟩
    · intro t' ht'
      cases ht'
      exact ⟨rfl, rfl, rfl⟩
    · intro e he
      exact Except.noConfusion he
  | error e =>
    refine ⟨_, rfl, ?_, ?_⟩
    · intro t ht
      exact Except.noConfusion ht
    · intro e' he'
      cases he'
      refine ⟨rfl, rfl, ?_, ?_⟩
      · show containsSeq (chars ("/") ++ fp) (error_html fp e.msg) = true
        have hsplit : error_html fp e.msg =
            chars (errorHead) ++ (chars ("/") ++ fp) ++
            (chars (errorMid) ++ e.msg ++ chars (errorTail)) := by
          simp [error_html, List.append_assoc]
        rw [hsplit]
        exact containsSeq_mono_append _ _ (containsSeq_self _)
      · show containsSeq e.msg (error_html fp e.msg) = true
        have hsplit : error_html fp e.msg =
            (chars (errorHead) ++ chars ("/") ++ fp ++ chars (errorMid)) ++
            e.msg ++ chars (errorTail) := by
          simp [error_html, List.append_assoc]
        rw [hsplit]
        exact containsSeq_mono_append _ _ (containsSeq_self _)

/-- Counterexample for C1 as stated: a POST whose body fails structured
parsing and whose raw bytes are not valid UTF-8 makes the handler raise
(`bytes.decode()` fails inside the `except` suite, before the `try` around
the model call), so the handler returns no HTTP response at all for this
request. -/
theorem C1_counterexample :
    catch_all "POST" (chars ("upload")) [] (Except.error jsonParseErr) [255]
      (fun _ => Except.ok (chars ("ok"))) = Except.error utf8DecodeErr := rfl

/-- Witness for C1 at a concrete GET request with a succeeding model. -/
theorem C1_witness :
    ∃ r : HttpResponse,
      catch_all "GET" (chars ("about")) [] (Except.error jsonParseErr) []
        (fun _ => Except.ok (chars ("hi"))) = Except.ok r ∧
      (∀ t, (fun _ => Except.ok (chars ("hi")) : List Char → Except PyErr (List Char))
          (build_prompt "GET" (chars ("about")) [] PyVal.none) = Except.ok t →
        r.content = clean_llm_response t ∧
        r.media_type = (detect_content_type (clean_llm_response t)).1 ∧
        r.status_code = 200) ∧
      (∀ e, (fun _ => Except.ok (chars ("hi")) : List Char → Except PyErr (List Char))
          (build_prompt "GET" (chars ("about")) [] PyVal.none) = Except.error e →
        r.status_code = 500 ∧ r.media_type = "text/html" ∧
        containsSeq (chars ("/") ++ chars ("about")) r.content = true ∧
        containsSeq e.msg r.content = true) :=
  C1_single_response "GET" (chars ("about")) [] (Except.error jsonParseErr) []
    (fun _ => Except.ok (chars ("hi"))) PyVal.none rfl

/-- C5: the claim states body extraction never raises; the code violates
it.  For a POST whose body fails JSON parsing (as the raw bytes `[0xFF]`
do) the fallback `body.decode()` runs inside the `except` suite on bytes
that are not valid UTF-8, raises `UnicodeDecodeError`, and propagates —
there is no surrounding handler at that point. -/
theorem C5_decode_raises :
    extract_body "POST" (Except.error jsonParseErr) [255] =
      Except.error utf8DecodeErr ∧
    utf8Decode [255] = Option.none :=
  ⟨rfl, rfl⟩

end ChaoticWeb
